import Mathlib

/-!
Verification of the training-orchestration core of `nerf/utils.py` (class
`Trainer`).  Tensors are embedded as lists of rationals (the float values the
code manipulates are only combined by `+ * / <` in the verified fragments, so
`ℚ` is a faithful carrier); stateful methods become explicit state-passing
functions; fallible code returns `Except`.
-/

namespace TorchNgp

/-!
### Error map update (`Trainer.train_step`, nerf/utils.py lines 532-554)

The source takes the rows of `self.error_map` selected by `index` (an advanced
index, which copies each selected row from the original grid), computes
`ema_error = error_map_weight * error_map.gather(1, inds)
           + (1 - error_map_weight) * error`,
scatters it back at `inds`, and writes the rows back with
`self.error_map[index] = error_map` (on duplicate view indices the last write
wins, and every copy was taken from the original grid).
-/

/-- `row.gather(inds)` on one row: read the row at each sampled index. -/
def gatherList (row : List ℚ) (is : List ℕ) : List ℚ :=
  is.map (fun i => row.getD i 0)

/-- `row.scatter_(inds, vals)` on one row: write `vals` at positions `is`. -/
def scatterList : List ℚ → List ℕ → List ℚ → List ℚ
  | row, i :: is, v :: vs => scatterList (row.set i v) is vs
  | row, _, _ => row

/-- `error_map_weight * old + (1 - error_map_weight) * error`, elementwise
(nerf/utils.py line 550). -/
def blendErrors (w : ℚ) (olds errs : List ℚ) : List ℚ :=
  List.zipWith (fun o e => w * o + (1 - w) * e) olds errs

/-- One row of the error-map update: gather the old values at the sampled
coarse indices, blend the observed errors in, scatter back. -/
def updateRow (w : ℚ) (row : List ℚ) (is : List ℕ) (es : List ℚ) : List ℚ :=
  scatterList row is (blendErrors w (gatherList row is) es)

/-- The write-back `self.error_map[index] = error_map`: each batch row `b`
replaces grid row `index[b]` with the update of the ORIGINAL grid row (the
advanced-index read copied rows from `orig`); later batch rows win. -/
def errorMapWrite (w : ℚ) (orig : List (List ℚ)) :
    List (ℕ × List ℕ × List ℚ) → List (List ℚ) → List (List ℚ)
  | [], acc => acc
  | (v, is, es) :: rest, acc =>
      errorMapWrite w orig rest (acc.set v (updateRow w (orig.getD v []) is es))

/-- The whole error-map side effect of one `train_step`: `index` holds the view
index of each batch row, `indsCoarse` the sampled coarse coordinates per row,
`errs` the observed per-sample errors per row. -/
def errorMapUpdate (w : ℚ) (em : List (List ℚ)) (index : List ℕ)
    (indsCoarse : List (List ℕ)) (errs : List (List ℚ)) : List (List ℚ) :=
  errorMapWrite w em (index.zip (indsCoarse.zip errs)) em

theorem getD_set_self_of_lt {α : Type} (l : List α) (i : ℕ) (a d : α)
    (h : i < l.length) : (l.set i a).getD i d = a := by
  rw [List.getD_eq_getElem?_getD, List.getElem?_set_self h, Option.getD_some]

theorem getD_set_of_ne {α : Type} (l : List α) (i j : ℕ) (a d : α)
    (h : i ≠ j) : (l.set i a).getD j d = l.getD j d := by
  rw [List.getD_eq_getElem?_getD, List.getElem?_set_ne h, ← List.getD_eq_getElem?_getD]

theorem scatterList_getD_of_not_mem (is : List ℕ) :
    ∀ (row : List ℚ) (vs : List ℚ) (c : ℕ), c ∉ is →
      (scatterList row is vs).getD c 0 = row.getD c 0 := by
  induction is with
  | nil => intro row vs c _; cases vs <;> simp [scatterList]
  | cons i is ih =>
    intro row vs c hc
    cases vs with
    | nil => simp [scatterList]
    | cons v vs =>
      have hci : i ≠ c := fun h => hc (h ▸ List.mem_cons_self i is)
      have hcs : c ∉ is := fun h => hc (List.mem_cons_of_mem _ h)
      rw [scatterList, ih _ _ _ hcs]
      simp [List.getD_eq_getElem?_getD, List.getElem?_set_ne hci]

theorem scatterList_length (is : List ℕ) :
    ∀ (row : List ℚ) (vs : List ℚ), (scatterList row is vs).length = row.length := by
  induction is with
  | nil => intro row vs; cases vs <;> simp [scatterList]
  | cons i is ih =>
    intro row vs
    cases vs with
    | nil => simp [scatterList]
    | cons v vs => rw [scatterList, ih, List.length_set]

theorem scatterList_getD_nodup (is : List ℕ) :
    ∀ (row : List ℚ) (vs : List ℚ) (j : ℕ), is.Nodup → j < is.length → j < vs.length →
      is.getD j 0 < row.length →
      (scatterList row is vs).getD (is.getD j 0) 0 = vs.getD j 0 := by
  induction is with
  | nil => intro row vs j _ hj _ _; exact absurd hj (by simp)
  | cons i is ih =>
    intro row vs j hnd hj hjv hlt
    cases vs with
    | nil => exact absurd hjv (by simp)
    | cons v vs =>
      cases j with
      | zero =>
        have hni : i ∉ is := (List.nodup_cons.mp hnd).1
        rw [scatterList]
        have h0 : (i :: is).getD 0 0 = i := rfl
        rw [h0] at hlt ⊢
        rw [scatterList_getD_of_not_mem is _ _ _ hni]
        simp [List.getD_eq_getElem?_getD, List.getElem?_set_self hlt]
      | succ j =>
        have hnd' := (List.nodup_cons.mp hnd).2
        rw [scatterList]
        have hsh : (i :: is).getD (j + 1) 0 = is.getD j 0 := rfl
        rw [hsh] at hlt ⊢
        have hvs : (v :: vs).getD (j + 1) 0 = vs.getD j 0 := rfl
        rw [hvs]
        exact ih (row.set i v) vs j hnd' (by simpa using hj) (by simpa using hjv)
          (by rw [List.length_set]; exact hlt)

theorem updateRow_getD (w : ℚ) (row : List ℚ) (is : List ℕ) (es : List ℚ) (j : ℕ)
    (hnd : is.Nodup) (hj : j < is.length) (hje : j < es.length)
    (hlt : is.getD j 0 < row.length) :
    (updateRow w row is es).getD (is.getD j 0) 0
      = w * row.getD (is.getD j 0) 0 + (1 - w) * es.getD j 0 := by
  unfold updateRow
  have hgl : (gatherList row is).length = is.length := by simp [gatherList]
  have hbl : (blendErrors w (gatherList row is) es).length = min is.length es.length := by
    simp [blendErrors, hgl]
  have hjb : j < (blendErrors w (gatherList row is) es).length := by
    rw [hbl]; exact lt_min hj hje
  rw [scatterList_getD_nodup is row _ j hnd hj hjb hlt]
  rw [List.getD_eq_getElem _ _ hjb]
  unfold blendErrors
  rw [List.getElem_zipWith]
  have hjg : j < (gatherList row is).length := by rw [hgl]; exact hj
  have h1 : (gatherList row is)[j] = row.getD (is.getD j 0) 0 := by
    unfold gatherList
    rw [List.getElem_map]
    congr 1
    exact (List.getD_eq_getElem is 0 hj).symm
  rw [h1]
  congr 1
  congr 1
  exact (List.getD_eq_getElem es 0 hje).symm

theorem errorMapWrite_getD_of_not_mem (w : ℚ) (orig : List (List ℚ))
    (triples : List (ℕ × List ℕ × List ℚ)) :
    ∀ (acc : List (List ℚ)) (v : ℕ), (∀ t ∈ triples, t.1 ≠ v) →
      (errorMapWrite w orig triples acc).getD v [] = acc.getD v [] := by
  induction triples with
  | nil => intro acc v _; rfl
  | cons t rest ih =>
    intro acc v h
    obtain ⟨v', is', es'⟩ := t
    rw [errorMapWrite]
    rw [ih _ v (fun t ht => h t (List.mem_cons_of_mem _ ht))]
    have hne : v' ≠ v := h (v', is', es') (List.mem_cons_self _ _)
    simp [List.getD_eq_getElem?_getD, List.getElem?_set_ne hne]

theorem errorMapWrite_frame (w : ℚ) (orig : List (List ℚ))
    (triples : List (ℕ × List ℕ × List ℚ)) :
    ∀ (acc : List (List ℚ)) (v c : ℕ),
      (∀ t ∈ triples, t.1 = v → c ∉ t.2.1) →
      (acc.getD v []).getD c 0 = (orig.getD v []).getD c 0 →
      ((errorMapWrite w orig triples acc).getD v []).getD c 0
        = (orig.getD v []).getD c 0 := by
  induction triples with
  | nil => intro acc v c _ hacc; exact hacc
  | cons t rest ih =>
    intro acc v c h hacc
    obtain ⟨v', is', es'⟩ := t
    rw [errorMapWrite]
    apply ih _ v c (fun t ht => h t (List.mem_cons_of_mem _ ht))
    by_cases hv : v' = v
    · subst hv
      have hc : c ∉ is' := h (v', is', es') (List.mem_cons_self _ _) rfl
      by_cases hlen : v' < acc.length
      · rw [getD_set_self_of_lt acc v' _ [] hlen]
        unfold updateRow
        rw [scatterList_getD_of_not_mem _ _ _ _ hc]
      · rw [List.set_eq_of_length_le (le_of_not_lt hlen)]
        exact hacc
    · rw [getD_set_of_ne acc v' v _ [] hv]
      exact hacc

theorem zip_map_fst_sublist {α β : Type} :
    ∀ (as : List α) (bs : List β), ((as.zip bs).map Prod.fst).Sublist as := by
  intro as
  induction as with
  | nil => intro bs; simp
  | cons a as ih =>
    intro bs
    cases bs with
    | nil => simp
    | cons b bs =>
      simpa [List.zip_cons_cons] using (ih bs).cons₂ a

theorem errorMapWrite_getD_of_mem (w : ℚ) (orig : List (List ℚ))
    (triples : List (ℕ × List ℕ × List ℚ)) :
    ∀ (acc : List (List ℚ)) (v : ℕ) (is : List ℕ) (es : List ℚ),
      (triples.map (fun t => t.1)).Nodup → (v, is, es) ∈ triples → v < acc.length →
      (errorMapWrite w orig triples acc).getD v []
        = updateRow w (orig.getD v []) is es := by
  induction triples with
  | nil => intro acc v is es _ hmem _; exact absurd hmem (List.not_mem_nil _)
  | cons t rest ih =>
    intro acc v is es hnd hmem hvlt
    obtain ⟨v', is', es'⟩ := t
    have hnd' : v' ∉ rest.map (fun t => t.1) ∧ (rest.map (fun t => t.1)).Nodup := by
      rw [List.map_cons] at hnd
      exact List.nodup_cons.mp hnd
    rw [errorMapWrite]
    rcases List.mem_cons.mp hmem with heq | hmem'
    · have hv : v = v' := congrArg Prod.fst heq
      have hrest : ∀ t ∈ rest, t.1 ≠ v := by
        intro t ht hteq
        exact hnd'.1 (hv ▸ hteq ▸ List.mem_map_of_mem (fun t => t.1) ht)
      rw [errorMapWrite_getD_of_not_mem w orig rest _ v hrest]
      have his : is = is' := congrArg (fun p => p.2.1) heq
      have hes : es = es' := congrArg (fun p => p.2.2) heq
      subst hv his hes
      simp [List.getD_eq_getElem?_getD, List.getElem?_set_self hvlt]
    · have hne : v' ≠ v := by
        intro h
        subst h
        exact hnd'.1 (List.mem_map_of_mem (fun t => t.1) hmem')
      exact ih _ v is es hnd'.2 hmem' (by rw [List.length_set]; exact hvlt)

/-- C8: for every error-map update performed during a training step, a grid
coordinate `c` of a view `v` that is not among `v`'s sampled coarse indices in
any batch row — in particular every coordinate of a view absent from the batch
`index` — retains its prior value exactly. -/
theorem errorMap_update_frame (w : ℚ) (em : List (List ℚ)) (index : List ℕ)
    (indsCoarse : List (List ℕ)) (errs : List (List ℚ)) (v c : ℕ)
    (h : ∀ t ∈ index.zip (indsCoarse.zip errs), t.1 = v → c ∉ t.2.1) :
    ((errorMapUpdate w em index indsCoarse errs).getD v []).getD c 0
      = (em.getD v []).getD c 0 := by
  unfold errorMapUpdate
  exact errorMapWrite_frame w em _ em v c h rfl

/-- Witness for `errorMap_update_frame`: a two-view grid where view 0 samples
coordinate 1 only; coordinate 0 of view 1 (a view not in the batch) keeps its
prior value `4`. -/
theorem errorMap_update_frame_witness :
    ((errorMapUpdate (1/10) [[2, 3], [4, 5]] [0] [[1]] [[1]]).getD 1 []).getD 0 0 = 4 :=
  (errorMap_update_frame (1/10) [[2, 3], [4, 5]] [0] [[1]] [[1]] 1 0 (by decide)).trans rfl

/-- C1 counterexample: with `error_map_weight = 1/10`, prior stored value `0`
and observed error `1` at the single sampled coordinate, the code stores
`(1/10)·old + (9/10)·observed = 9/10`, not the claimed
`α·observed_error + (1-α)·old = 1/10`. -/
theorem errorMap_blend_claim_counterexample :
    ((errorMapUpdate (1/10) [[0]] [0] [[0]] [[1]]).getD 0 []).getD 0 0
      ≠ (1/10) * 1 + (1 - 1/10) * 0 := by
  have hval : ((errorMapUpdate (1/10) [[0]] [0] [[0]] [[1]]).getD 0 []).getD 0 0
      = (1/10) * 0 + (1 - 1/10) * 1 := rfl
  rw [hval]
  norm_num

/-- C1 (amended): at each sampled coordinate the new error-map value equals
`α·old + (1-α)·observed_error` with `α = error_map_weight` — the configured
weight multiplies the OLD stored value, the observed error gets weight `1-α`
(nerf/utils.py line 550). -/
theorem errorMap_update_blend_weight (w : ℚ) (em : List (List ℚ)) (index : List ℕ)
    (indsCoarse : List (List ℕ)) (errs : List (List ℚ)) (v : ℕ) (is : List ℕ)
    (es : List ℚ) (j : ℕ)
    (hndIndex : index.Nodup)
    (hmem : (v, is, es) ∈ index.zip (indsCoarse.zip errs))
    (hvlt : v < em.length)
    (hndIs : is.Nodup) (hj : j < is.length) (hje : j < es.length)
    (hclt : is.getD j 0 < (em.getD v []).length) :
    ((errorMapUpdate w em index indsCoarse errs).getD v []).getD (is.getD j 0) 0
      = w * ((em.getD v []).getD (is.getD j 0) 0) + (1 - w) * es.getD j 0 := by
  unfold errorMapUpdate
  have hnd : ((index.zip (indsCoarse.zip errs)).map (fun t => t.1)).Nodup := by
    have hsub := zip_map_fst_sublist index (indsCoarse.zip errs)
    have : ((index.zip (indsCoarse.zip errs)).map Prod.fst).Nodup :=
      hndIndex.sublist hsub
    simpa using this
  rw [errorMapWrite_getD_of_mem w em _ em v is es hnd hmem hvlt]
  exact updateRow_getD w _ is es j hndIs hj hje hclt

/-- Witness for `errorMap_update_blend_weight`: prior value `7` at coordinate
1 of view 0, observed error `3`, weight `1/10`: new value is
`(1/10)·7 + (9/10)·3 = 17/5`. -/
theorem errorMap_update_blend_weight_witness :
    ((errorMapUpdate (1/10) [[5, 7]] [0] [[1]] [[3]]).getD 0 []).getD 1 0
      = (1/10) * 7 + (1 - 1/10) * 3 := by
  have h := errorMap_update_blend_weight (1/10) [[5, 7]] [0] [[1]] [[3]] 0 [1] [3] 0
    (by decide) (by decide) (by decide) (by decide) (by decide) (by decide) (by decide)
  exact h

/-!
### Checkpoint retention (`Trainer.save_checkpoint`, nerf/utils.py lines 1176-1234)

A regular save (`best=False`) appends the new file path to
`self.stats["checkpoints"]`; when the list then exceeds `max_keep_ckpt` it pops
the front entry and removes that file from disk (`os.remove`, guarded by
`os.path.exists`), and finally `torch.save` writes the new file.  When
`remove_old=False` the path is not recorded at all, only the file is written.
-/

/-- The set of files on disk, as a duplicate-free list. -/
def diskRemove (d : List String) (p : String) : List String :=
  d.filter (fun q => q ≠ p)

def diskWrite (d : List String) (p : String) : List String :=
  if p ∈ d then d else d ++ [p]

structure CkptState where
  checkpoints : List String
  disk : List String
deriving DecidableEq

/-- `save_checkpoint(full, best=False, remove_old, ...)`: returns the new state
and the evicted path, if any. -/
def saveRegular (maxKeep : ℕ) (removeOld : Bool) (path : String) (s : CkptState) :
    CkptState × Option String :=
  if removeOld then
    let cps := s.checkpoints ++ [path]
    if maxKeep < cps.length then
      { checkpoints := cps.tail,
        disk := diskWrite (diskRemove s.disk (cps.headD "")) path } |>
        (⟨·, some (cps.headD "")⟩)
    else ({ checkpoints := cps, disk := diskWrite s.disk path }, none)
  else ({ s with disk := diskWrite s.disk path }, none)

/-- A sequence of regular saves. -/
def saveRegularRun (maxKeep : ℕ) : CkptState → List (Bool × String) → CkptState
  | s, [] => s
  | s, (ro, p) :: rest => saveRegularRun maxKeep (saveRegular maxKeep ro p s).1 rest

theorem saveRegular_length_le (maxKeep : ℕ) (ro : Bool) (p : String) (s : CkptState)
    (h : s.checkpoints.length ≤ maxKeep) :
    (saveRegular maxKeep ro p s).1.checkpoints.length ≤ maxKeep := by
  unfold saveRegular
  cases ro with
  | false => simpa using h
  | true =>
    simp only [Bool.true_eq_false, if_true, reduceIte]
    by_cases hlen : maxKeep < (s.checkpoints ++ [p]).length
    · rw [if_pos hlen]
      simp only [List.length_tail, List.length_append, List.length_cons,
        List.length_nil]
      omega
    · rw [if_neg hlen]
      simpa using le_of_not_lt hlen

/-- C2: after every regular (`best=False`) save — in every sequence of such
saves starting from a state satisfying the bound, e.g. a fresh trainer with an
empty list — `len(checkpoint_paths) ≤ max_keep_ckpt` holds; and whenever a path
is evicted it is the oldest recorded one (the head of the append of the new
path) and, as long as it does not coincide with the path just written, its file
is no longer on disk. -/
theorem save_checkpoint_retention_invariant (maxKeep : ℕ) :
    (∀ (s : CkptState) (calls : List (Bool × String)),
      s.checkpoints.length ≤ maxKeep →
      (saveRegularRun maxKeep s calls).checkpoints.length ≤ maxKeep) ∧
    (∀ (ro : Bool) (p : String) (s : CkptState) (q : String),
      (saveRegular maxKeep ro p s).2 = some q →
      (s.checkpoints ++ [p]).headD "" = q ∧
        (q ≠ p → q ∉ (saveRegular maxKeep ro p s).1.disk)) := by
  constructor
  · intro s calls
    induction calls generalizing s with
    | nil => intro h; exact h
    | cons c rest ih =>
      intro h
      obtain ⟨ro, p⟩ := c
      exact ih _ (saveRegular_length_le maxKeep ro p s h)
  · intro ro p s q hq
    unfold saveRegular at hq ⊢
    cases ro with
    | false => simp at hq
    | true =>
      simp only [reduceIte] at hq ⊢
      by_cases hlen : maxKeep < (s.checkpoints ++ [p]).length
      · rw [if_pos hlen] at hq ⊢
        simp only [Option.some.injEq] at hq
        refine ⟨hq, ?_⟩
        intro hne hmem
        subst hq
        simp only at hmem
        unfold diskWrite at hmem
        by_cases hp : p ∈ diskRemove s.disk ((s.checkpoints ++ [p]).headD "")
        · rw [if_pos hp] at hmem
          unfold diskRemove at hmem
          exact of_decide_eq_true (List.mem_filter.mp hmem).2 rfl
        · rw [if_neg hp] at hmem
          rcases List.mem_append.mp hmem with hmem' | hmem'
          · unfold diskRemove at hmem'
            exact of_decide_eq_true (List.mem_filter.mp hmem').2 rfl
          · exact hne (by simpa using hmem')
      · rw [if_neg hlen] at hq
        simp at hq

/-- Witness for `save_checkpoint_retention_invariant`, at `max_keep_ckpt = 2`:
after three saves from a fresh state only the two newest paths remain recorded,
and the single call that evicts "a" reports it as the oldest and leaves it off
disk. -/
theorem save_checkpoint_retention_invariant_witness :
    (saveRegularRun 2 ⟨[], []⟩ [(true, "a"), (true, "b"), (true, "c")]).checkpoints.length ≤ 2 ∧
    (saveRegular 2 true "c" ⟨["a", "b"], ["a", "b"]⟩).2 = some "a" ∧
    "a" ∉ (saveRegular 2 true "c" ⟨["a", "b"], ["a", "b"]⟩).1.disk := by
  refine ⟨(save_checkpoint_retention_invariant 2).1 ⟨[], []⟩ _ (by decide), by decide, ?_⟩
  have h := ((save_checkpoint_retention_invariant 2).2 true "c" ⟨["a", "b"], ["a", "b"]⟩
    "a" (by decide)).2 (by decide)
  exact h

/-!
### Best-result tracking (`Trainer.evaluate_one_epoch` lines 1156-1160,
`Trainer.save_checkpoint(best=True)` lines 1214-1234)

`evaluate_one_epoch` appends `result` (or `-result` when `best_mode='max'`) to
`self.stats["results"]`, so that internally smaller is always better.  A best
save then compares only the MOST RECENT entry `results[-1]` with
`best_result`: on strict improvement (or when `best_result` is still `None`)
it updates `best_result` and rewrites the canonical best file; with no
recorded results it warns and skips.
-/

structure BestState where
  results : List ℚ
  bestResult : Option ℚ
deriving DecidableEq

/-- Recording of an epoch result (internal, direction-normalized value when
`bestModeMin` is false the raw result is negated). -/
def recordResult (bestModeMin : Bool) (r : ℚ) (s : BestState) : BestState :=
  { s with results := s.results ++ [if bestModeMin then r else -r] }

/-- `save_checkpoint(best=True)`: returns the new state and whether the best
checkpoint file was (re)written. -/
def saveBest (s : BestState) : BestState × Bool :=
  match s.results.getLast? with
  | none => (s, false)
  | some last =>
    match s.bestResult with
    | none => ({ s with bestResult := some last }, true)
    | some b => if last < b then ({ s with bestResult := some last }, true) else (s, false)

/-- Record one (already direction-normalized) result, then perform a best
save. -/
def bestRun : BestState → List ℚ → BestState
  | s, [] => s
  | s, r :: rs => bestRun (saveBest (recordResult true r s)).1 rs

/-- Running minimum of a list, `none` on the empty list. -/
def minSoFar : Option ℚ → List ℚ → Option ℚ
  | acc, [] => acc
  | none, r :: rs => minSoFar (some r) rs
  | some m, r :: rs => minSoFar (some (min m r)) rs

theorem minSoFar_concat : ∀ (xs : List ℚ) (acc : Option ℚ) (r : ℚ),
    minSoFar acc (xs ++ [r])
      = some (match minSoFar acc xs with | none => r | some m => min m r) := by
  intro xs
  induction xs with
  | nil =>
    intro acc r
    cases acc <;> simp [minSoFar]
  | cons x xs ih =>
    intro acc r
    cases acc <;> simp [minSoFar, ih]

/-- C3 counterexample: record internal results `1` then `2` (min direction),
then perform one best save.  `best_result` becomes `2` — the most recent
result — not the best (`1`) of all results recorded so far, refuting the
claim for general interleavings of recordings and best saves. -/
theorem best_result_interleaving_counterexample :
    (saveBest (recordResult true 2 (recordResult true 1 ⟨[], none⟩))).1.bestResult
      ≠ minSoFar none (saveBest (recordResult true 2 (recordResult true 1 ⟨[], none⟩))).1.results := by
  decide

/-- C3 (amended): provided every recorded result is followed by a best save
before the next recording (the alternation the training loop's
evaluate-then-save cadence produces), `best_result` equals the minimum — the
best in the internal smaller-is-better normalization — of all results recorded
so far; and, in any state, a best save with at least one recorded result
rewrites the best checkpoint file iff the most recent result strictly improves
on the prior `best_result` (a still-absent `best_result` counts as improved). -/
theorem best_result_tracking :
    (∀ rs : List ℚ, (bestRun ⟨[], none⟩ rs).bestResult = minSoFar none rs ∧
      (bestRun ⟨[], none⟩ rs).results = rs) ∧
    (∀ (s : BestState) (last : ℚ), s.results.getLast? = some last →
      ((saveBest s).2 = true ↔
        s.bestResult = none ∨ ∃ b, s.bestResult = some b ∧ last < b)) := by
  constructor
  · have key : ∀ (rs : List ℚ) (s : BestState),
        s.bestResult = minSoFar none s.results →
        (bestRun s rs).bestResult = minSoFar none (s.results ++ rs) ∧
          (bestRun s rs).results = s.results ++ rs := by
      intro rs
      induction rs with
      | nil => intro s hs; refine ⟨?_, ?_⟩ <;> simp [bestRun, hs]
      | cons r rs ih =>
        intro s hs
        rw [bestRun]
        have hrec : (recordResult true r s).results = s.results ++ [r] := by
          simp [recordResult]
        have hlast : (recordResult true r s).results.getLast? = some r := by
          rw [hrec]; exact List.getLast?_concat _
        have hstep : (saveBest (recordResult true r s)).1.bestResult
              = minSoFar none (s.results ++ [r]) ∧
            (saveBest (recordResult true r s)).1.results = s.results ++ [r] := by
          rw [minSoFar_concat, ← hs]
          unfold saveBest
          rw [hlast]
          cases hb : s.bestResult with
          | none => simp [recordResult, hb]
          | some b =>
            simp only [recordResult, hb]
            by_cases hlt : r < b
            · rw [if_pos hlt]
              constructor
              · simp [min_eq_right (le_of_lt hlt)]
              · simp
            · rw [if_neg hlt]
              constructor
              · simp [min_eq_left (le_of_not_lt hlt)]
              · simp
        have := ih _ (hstep.1.trans (by rw [hstep.2]))
        rw [hstep.2] at this
        simpa [List.append_assoc] using this
    intro rs
    simpa using key rs ⟨[], none⟩ rfl
  · intro s last hlast
    unfold saveBest
    rw [hlast]
    cases hb : s.bestResult with
    | none => simp
    | some b =>
      by_cases hlt : last < b
      · simp [hlt]
      · simp [hlt]

/-- Witness for `best_result_tracking`: the alternating run over internal
results `[3, 1, 2]` ends with `best_result = 1`, and a best save on a state
whose most recent result `1` beats the prior best `3` reports a rewrite. -/
theorem best_result_tracking_witness :
    (bestRun ⟨[], none⟩ [3, 1, 2]).bestResult = some 1 ∧
    (saveBest ⟨[3, 1], some 3⟩).2 = true := by
  constructor
  · exact ((best_result_tracking.1 [3, 1, 2]).1).trans (by decide)
  · exact (best_result_tracking.2 ⟨[3, 1], some 3⟩ 1 (by decide)).mpr
      (Or.inr ⟨3, rfl, by norm_num⟩)

/-!
### Checkpoint records (`Trainer.save_checkpoint` lines 1176-1212,
`Trainer.load_checkpoint` lines 1236-1307)

A full regular checkpoint stores `epoch`, `global_step`, `stats`, the model
state dict, the cuda-ray counters when present, and the
optimizer/scheduler/scaler (and EMA, when enabled) state dicts.  Loading a
structured record restores model parameters non-strictly (missing/unexpected
keys are returned and logged as warnings), loads the EMA state dict WITHOUT a
`try`/`except` guard, restores the cuda-ray counters, and — unless
`model_only` — restores `stats`, `epoch`, `global_step` and then each of
optimizer/scheduler/scaler inside its own `try`/`except`.  An auxiliary state
dict whose `load_state_dict` raises is modelled by `CompLoad.fail`; a state
dict that loads to state `v` by `CompLoad.ok v`.
-/

structure TrainStats where
  loss : List ℚ
  validLoss : List ℚ
  results : List ℚ
  checkpoints : List String
  bestResult : Option ℚ
deriving DecidableEq

/-- Outcome of calling `load_state_dict` on an auxiliary component's saved
state: it either produces component state `v` or raises. -/
inductive CompLoad where
  | ok : ℕ → CompLoad
  | fail : CompLoad
deriving DecidableEq

structure TrainerSt where
  epoch : ℕ
  globalStep : ℕ
  stats : TrainStats
  modelParams : List (String × ℚ)
  emaEnabled : Bool
  emaState : ℕ
  optimizerState : ℕ
  schedulerState : ℕ
  scalerState : ℕ
  cudaRay : Bool
  meanCount : ℕ
  meanDensity : ℚ
deriving DecidableEq

structure CkptRecord where
  epoch : ℕ
  globalStep : ℕ
  stats : TrainStats
  model : List (String × ℚ)
  meanCount : Option ℕ
  meanDensity : Option ℚ
  optimizer : Option CompLoad
  lrScheduler : Option CompLoad
  scaler : Option CompLoad
  ema : Option CompLoad
deriving DecidableEq

/-- `save_checkpoint(full=True, best=False)`: the structured record written to
disk (the freshly serialized state dicts load back without failure). -/
def saveCheckpointFull (t : TrainerSt) : CkptRecord :=
  { epoch := t.epoch
    globalStep := t.globalStep
    stats := t.stats
    model := t.modelParams
    meanCount := if t.cudaRay then some t.meanCount else none
    meanDensity := if t.cudaRay then some t.meanDensity else none
    optimizer := some (.ok t.optimizerState)
    lrScheduler := some (.ok t.schedulerState)
    scaler := some (.ok t.scalerState)
    ema := if t.emaEnabled then some (.ok t.emaState) else none }

/-- `self.model.load_state_dict(ckpt, strict=False)`: parameters present in
both the live model and the checkpoint are copied, the others kept; returns
the new parameters together with the `missing_keys` (live keys absent from the
checkpoint) and `unexpected_keys` (checkpoint keys absent from the live
model), which the caller merely logs. -/
def loadStateDictNonStrict (live ckpt : List (String × ℚ)) :
    List (String × ℚ) × List String × List String :=
  (live.map (fun kv =>
      match ckpt.lookup kv.1 with
      | some v => (kv.1, v)
      | none => kv),
   (live.map (fun kv => kv.1)).filter (fun k => !((ckpt.map (fun kv => kv.1)).contains k)),
   (ckpt.map (fun kv => kv.1)).filter (fun k => !((live.map (fun kv => kv.1)).contains k)))

/-- `load_checkpoint` on a structured record (one containing a `model` entry).
Returns the updated trainer and the logged missing/unexpected key lists, or
`Except.error` when an unguarded restore raises. -/
def loadCheckpointStructured (t : TrainerSt) (rec : CkptRecord) (modelOnly : Bool) :
    Except String (TrainerSt × List String × List String) :=
  let loaded := loadStateDictNonStrict t.modelParams rec.model
  let t1 : TrainerSt := { t with modelParams := loaded.1 }
  match (if t1.emaEnabled then rec.ema else none) with
  | some CompLoad.fail => Except.error "ema load_state_dict raised"
  | emaEntry =>
    let t2 : TrainerSt :=
      match emaEntry with
      | some (CompLoad.ok v) => { t1 with emaState := v }
      | _ => t1
    let t3 : TrainerSt :=
      if t2.cudaRay then
        { t2 with meanCount := rec.meanCount.getD t2.meanCount
                  meanDensity := rec.meanDensity.getD t2.meanDensity }
      else t2
    if modelOnly then Except.ok (t3, loaded.2.1, loaded.2.2)
    else
      let t4 : TrainerSt :=
        { t3 with stats := rec.stats, epoch := rec.epoch, globalStep := rec.globalStep }
      let t5 : TrainerSt :=
        match rec.optimizer with
        | some (CompLoad.ok v) => { t4 with optimizerState := v }
        | _ => t4
      let t6 : TrainerSt :=
        match rec.lrScheduler with
        | some (CompLoad.ok v) => { t5 with schedulerState := v }
        | _ => t5
      let t7 : TrainerSt :=
        match rec.scaler with
        | some (CompLoad.ok v) => { t6 with scalerState := v }
        | _ => t6
      Except.ok (t7, loaded.2.1, loaded.2.2)

def isFatal {α : Type} : Except String α → Bool
  | Except.error _ => true
  | Except.ok _ => false

/-- A trainer with EMA enabled, used to exercise `load_checkpoint`. -/
def trainerEma : TrainerSt :=
  { epoch := 3, globalStep := 7
    stats := { loss := [1], validLoss := [], results := [], checkpoints := [],
               bestResult := none }
    modelParams := [("w", 1)]
    emaEnabled := true, emaState := 0
    optimizerState := 1, schedulerState := 2, scalerState := 3
    cudaRay := false, meanCount := 0, meanDensity := 0 }

/-- A structured checkpoint record whose EMA state dict raises on load. -/
def recordEmaFail : CkptRecord :=
  { epoch := 5, globalStep := 9
    stats := { loss := [2], validLoss := [], results := [], checkpoints := [],
               bestResult := none }
    model := [("w", 2)]
    meanCount := none, meanDensity := none
    optimizer := some (CompLoad.ok 11), lrScheduler := some (CompLoad.ok 12)
    scaler := some (CompLoad.ok 13), ema := some CompLoad.fail }

/-- A structured checkpoint record whose optimizer state dict raises on load
but whose EMA state loads fine. -/
def recordOptFail : CkptRecord :=
  { epoch := 5, globalStep := 9
    stats := { loss := [2], validLoss := [], results := [], checkpoints := [],
               bestResult := none }
    model := [("w", 2)]
    meanCount := some 4, meanDensity := some 6
    optimizer := some CompLoad.fail, lrScheduler := some (CompLoad.ok 12)
    scaler := none, ema := some (CompLoad.ok 14) }

/-- C5 counterexample: `self.ema.load_state_dict(checkpoint_dict['ema'])`
(nerf/utils.py line 1272) is NOT inside a `try`/`except`; when the EMA entry
of a structured record fails to load, `load_checkpoint` raises instead of
proceeding, refuting "a failure to restore any one of them is caught and
logged, never fatal". -/
theorem load_checkpoint_ema_failure_fatal :
    isFatal (loadCheckpointStructured trainerEma recordEmaFail false) = true := rfl

/-- C5 (amended): with `model_only=False` on a structured record, the
optimizer, scheduler and scaler states are each restored independently when
present, and a failure of any of THOSE three is caught and logged, the trainer
keeping its freshly initialized component; the EMA state is likewise restored
when present, but an EMA restore failure is not caught (it propagates), so the
no-abort guarantee holds only when the EMA entry loads or is absent. -/
theorem load_checkpoint_component_restore (t : TrainerSt) (rec : CkptRecord)
    (hEma : (if t.emaEnabled then rec.ema else none) ≠ some CompLoad.fail) :
    ∃ t' miss unexp,
      loadCheckpointStructured t rec false = Except.ok (t', miss, unexp) ∧
      t'.optimizerState = (match rec.optimizer with
        | some (CompLoad.ok v) => v
        | _ => t.optimizerState) ∧
      t'.schedulerState = (match rec.lrScheduler with
        | some (CompLoad.ok v) => v
        | _ => t.schedulerState) ∧
      t'.scalerState = (match rec.scaler with
        | some (CompLoad.ok v) => v
        | _ => t.scalerState) ∧
      t'.emaState = (match (if t.emaEnabled then rec.ema else none) with
        | some (CompLoad.ok v) => v
        | _ => t.emaState) := by
  obtain ⟨tep, tgs, tst, tmp, ten, tes, tos, tss, tscs, tcr, tmc, tmd⟩ := t
  obtain ⟨re, rg, rst, rm, rmc, rmd, ro, rl, rsc, rema⟩ := rec
  cases ten <;> cases tcr <;>
    rcases ro with _ | (v₁ | _) <;>
    rcases rl with _ | (v₂ | _) <;>
    rcases rsc with _ | (v₃ | _) <;>
    rcases rema with _ | (v₄ | _) <;>
    first
      | exact absurd rfl hEma
      | exact ⟨_, _, _, rfl, rfl, rfl, rfl, rfl⟩

/-- Witness for `load_checkpoint_component_restore`: a record whose optimizer
entry fails to load does not abort the load. -/
theorem load_checkpoint_component_restore_witness :
    ∃ t' miss unexp,
      loadCheckpointStructured trainerEma recordOptFail false
        = Except.ok (t', miss, unexp) ∧
      t'.optimizerState = trainerEma.optimizerState ∧ t'.emaState = 14 := by
  obtain ⟨t', miss, unexp, heq, hopt, -, -, hema⟩ :=
    load_checkpoint_component_restore trainerEma recordOptFail (by decide)
  exact ⟨t', miss, unexp, heq, hopt.trans rfl, hema.trans rfl⟩

/-- C10: `load_checkpoint(model_only=True)` on a structured record leaves
`epoch`, `global_step`, `stats` and the optimizer/scheduler/scaler states
untouched; it restores only the model parameters (non-strictly), the EMA state
when enabled and present, and — when the model uses cuda rays — the
`mean_count`/`mean_density` counters present in the record. -/
theorem load_checkpoint_model_only_frame (t : TrainerSt) (rec : CkptRecord)
    (hEma : (if t.emaEnabled then rec.ema else none) ≠ some CompLoad.fail) :
    ∃ t' miss unexp,
      loadCheckpointStructured t rec true = Except.ok (t', miss, unexp) ∧
      t'.epoch = t.epoch ∧ t'.globalStep = t.globalStep ∧ t'.stats = t.stats ∧
      t'.optimizerState = t.optimizerState ∧
      t'.schedulerState = t.schedulerState ∧
      t'.scalerState = t.scalerState ∧
      t'.modelParams = (loadStateDictNonStrict t.modelParams rec.model).1 ∧
      t'.emaState = (match (if t.emaEnabled then rec.ema else none) with
        | some (CompLoad.ok v) => v
        | _ => t.emaState) ∧
      t'.meanCount = (if t.cudaRay then rec.meanCount.getD t.meanCount
        else t.meanCount) ∧
      t'.meanDensity = (if t.cudaRay then rec.meanDensity.getD t.meanDensity
        else t.meanDensity) := by
  obtain ⟨tep, tgs, tst, tmp, ten, tes, tos, tss, tscs, tcr, tmc, tmd⟩ := t
  obtain ⟨re, rg, rst, rm, rmc, rmd, ro, rl, rsc, rema⟩ := rec
  cases ten <;> cases tcr <;>
    rcases rema with _ | (v₄ | _) <;>
    first
      | exact absurd rfl hEma
      | exact ⟨_, _, _, rfl, rfl, rfl, rfl, rfl, rfl, rfl, rfl, rfl, rfl, rfl⟩

/-- Witness for `load_checkpoint_model_only_frame`: a model-only load from a
record carrying different `epoch`/`global_step` leaves the trainer's epoch and
optimizer state alone. -/
theorem load_checkpoint_model_only_frame_witness :
    ∃ t' miss unexp,
      loadCheckpointStructured trainerEma recordOptFail true
        = Except.ok (t', miss, unexp) ∧
      t'.epoch = 3 ∧ t'.optimizerState = 1 := by
  obtain ⟨t', miss, unexp, heq, hep, -, -, hopt, -, -, -, -, -, -⟩ :=
    load_checkpoint_model_only_frame trainerEma recordOptFail (by decide)
  exact ⟨t', miss, unexp, heq, hep.trans rfl, hopt.trans rfl⟩

theorem lookup_loadStateDict (ckpt : List (String × ℚ)) :
    ∀ (live : List (String × ℚ)) (k : String) (v : ℚ), live.lookup k = some v →
      (loadStateDictNonStrict live ckpt).1.lookup k
        = some ((ckpt.lookup k).getD v) := by
  intro live
  induction live with
  | nil => intro k v h; simp [List.lookup] at h
  | cons kv rest ih =>
    intro k v h
    obtain ⟨k₁, v₁⟩ := kv
    unfold loadStateDictNonStrict at ih ⊢
    simp only [List.map_cons]
    rw [List.lookup] at h
    by_cases hk : (k == k₁) = true
    · simp only [hk] at h
      have hkeq : k = k₁ := beq_iff_eq.mp hk
      cases hc : ckpt.lookup k₁ with
      | none =>
        simp only [hc, List.lookup, hk]
        rw [hkeq, hc]
        simpa using h
      | some w =>
        simp only [hc, List.lookup, hk]
        rw [hkeq, hc]
        rfl
    · have hk' : (k == k₁) = false := by simpa using hk
      simp only [hk'] at h
      cases hc : ckpt.lookup k₁ with
      | none =>
        simp only [hc, List.lookup, hk']
        exact ih k v h
      | some w =>
        simp only [hc, List.lookup, hk']
        exact ih k v h

theorem mem_filter_not_contains (ks ks' : List String) (k : String) :
    k ∈ ks.filter (fun x => !(ks'.contains x)) ↔ (k ∈ ks ∧ k ∉ ks') := by
  simp [List.mem_filter]

/-- C6: a full regular save followed by a load on a fresh controller
reproduces `epoch`, `global_step`, `stats` (hence the recorded loss history)
exactly, never raises, copies every parameter key the fresh model and the
checkpoint share, and returns the extra/missing keys as warning lists rather
than failing. -/
theorem save_load_roundtrip (t fresh : TrainerSt) :
    ∃ t' miss unexp,
      loadCheckpointStructured fresh (saveCheckpointFull t) false
        = Except.ok (t', miss, unexp) ∧
      t'.epoch = t.epoch ∧ t'.globalStep = t.globalStep ∧
      t'.stats.loss = t.stats.loss ∧ t'.stats = t.stats ∧
      (∀ k v, fresh.modelParams.lookup k = some v →
        t'.modelParams.lookup k = some ((t.modelParams.lookup k).getD v)) ∧
      (∀ k, k ∈ miss ↔ (k ∈ fresh.modelParams.map (fun kv => kv.1) ∧
        k ∉ t.modelParams.map (fun kv => kv.1))) ∧
      (∀ k, k ∈ unexp ↔ (k ∈ t.modelParams.map (fun kv => kv.1) ∧
        k ∉ fresh.modelParams.map (fun kv => kv.1))) := by
  obtain ⟨tep, tgs, tst, tmp, ten, tes, tos, tss, tscs, tcr, tmc, tmd⟩ := t
  obtain ⟨fep, fgs, fst, fmp, fen, fes, fos, fss, fscs, fcr, fmc, fmd⟩ := fresh
  cases ten <;> cases fen <;> cases fcr <;>
    exact ⟨_, _, _, rfl, rfl, rfl, rfl, rfl,
      fun k v h => lookup_loadStateDict _ _ k v h,
      fun k => mem_filter_not_contains _ _ k,
      fun k => mem_filter_not_contains _ _ k⟩

/-- A trainer state to be checkpointed for the round-trip witness. -/
def trainerSaved : TrainerSt :=
  { epoch := 11, globalStep := 220
    stats := { loss := [3, 2], validLoss := [1], results := [2],
               checkpoints := ["old.pth.tar"], bestResult := some 2 }
    modelParams := [("a", 1), ("b", 2)]
    emaEnabled := false, emaState := 0
    optimizerState := 7, schedulerState := 8, scalerState := 9
    cudaRay := true, meanCount := 5, meanDensity := 3 }

/-- A freshly initialized trainer whose model has a partially different
parameter set. -/
def trainerFresh : TrainerSt :=
  { epoch := 1, globalStep := 0
    stats := { loss := [], validLoss := [], results := [], checkpoints := [],
               bestResult := none }
    modelParams := [("b", 5), ("c", 6)]
    emaEnabled := false, emaState := 0
    optimizerState := 0, schedulerState := 0, scalerState := 0
    cudaRay := true, meanCount := 0, meanDensity := 0 }

/-- Witness for `save_load_roundtrip`: saving `trainerSaved` and loading into
`trainerFresh` reproduces epoch 11, step 220 and loss history `[3, 2]`, and
copies the shared key "b". -/
theorem save_load_roundtrip_witness :
    ∃ t' miss unexp,
      loadCheckpointStructured trainerFresh (saveCheckpointFull trainerSaved) false
        = Except.ok (t', miss, unexp) ∧
      t'.epoch = 11 ∧ t'.globalStep = 220 ∧ t'.stats.loss = [3, 2] ∧
      t'.modelParams.lookup "b" = some 2 := by
  obtain ⟨t', miss, unexp, heq, hep, hgs, hloss, -, hcopy, -, -⟩ :=
    save_load_roundtrip trainerSaved trainerFresh
  refine ⟨t', miss, unexp, heq, hep.trans rfl, hgs.trans rfl, hloss.trans rfl, ?_⟩
  have h := hcopy "b" 5 rfl
  simpa using h

/-!
### Train loop scheduling (`Trainer.train`, nerf/utils.py lines 683-736)

Per epoch `e` from the current epoch up to `max_epochs`, the loop trains one
epoch; then, on the coordinating rank with a workspace set, it saves a REGULAR
full checkpoint (`save_checkpoint(full=True, best=False)`) when
`e % eval_interval == 0` (or, under `save_max_epoch_only`, exactly at
`max_epochs`); then it evaluates when `e % eval_interval == 0 and e > 0`.
`save_checkpoint(..., best=True)` is never invoked anywhere in `train`.
-/

inductive TrainAct where
  | trainEpoch : ℕ → TrainAct
  | saveCkpt : ℕ → Bool → Bool → TrainAct
  | evalPass : ℕ → TrainAct
deriving DecidableEq

/-- The externally visible actions of one iteration of the epoch loop. -/
def epochActs (evalInterval maxEpochs : ℕ) (saveMaxOnly rank0 hasWs : Bool)
    (e : ℕ) : List TrainAct :=
  [TrainAct.trainEpoch e]
    ++ (if hasWs ∧ rank0 ∧
          ((¬saveMaxOnly ∧ e % evalInterval = 0) ∨ (saveMaxOnly ∧ e = maxEpochs))
        then [TrainAct.saveCkpt e true false] else [])
    ++ (if e % evalInterval = 0 ∧ 0 < e then [TrainAct.evalPass e] else [])

/-- The action trace of `Trainer.train` run from `startEpoch` to
`maxEpochs`. -/
def trainActs (startEpoch maxEpochs evalInterval : ℕ)
    (saveMaxOnly rank0 hasWs : Bool) : List TrainAct :=
  (List.range' startEpoch (maxEpochs + 1 - startEpoch)).flatMap
    (epochActs evalInterval maxEpochs saveMaxOnly rank0 hasWs)

def isBestSave : TrainAct → Bool
  | TrainAct.saveCkpt _ _ true => true
  | _ => false

def hasBestSave (acts : List TrainAct) : Bool :=
  acts.any isBestSave

/-- C4 counterexample: running `train` for two epochs with `eval_interval = 1`
performs evaluation passes yet NO best-save comparison at all —
`save_checkpoint(best=True)` is never called by `train` — refuting "a
best-save comparison is performed after each such evaluation". -/
theorem train_loop_best_save_counterexample :
    TrainAct.evalPass 1 ∈ trainActs 1 2 1 false true true ∧
    TrainAct.evalPass 2 ∈ trainActs 1 2 1 false true true ∧
    hasBestSave (trainActs 1 2 1 false true true) = false := by
  decide

theorem epochActs_no_best (evalInterval maxEpochs : ℕ)
    (saveMaxOnly rank0 hasWs : Bool) (e : ℕ) :
    ∀ a ∈ epochActs evalInterval maxEpochs saveMaxOnly rank0 hasWs e,
      isBestSave a = false := by
  intro a ha
  unfold epochActs at ha
  simp only [List.mem_append, List.mem_singleton] at ha
  rcases ha with (h | h) | h
  · rw [h]; rfl
  · split at h
    · simp only [List.mem_singleton] at h
      rw [h]; rfl
    · exact absurd h (List.not_mem_nil a)
  · split at h
    · simp only [List.mem_singleton] at h
      rw [h]; rfl
    · exact absurd h (List.not_mem_nil a)

/-- C4 (amended): at every epoch `e` in the range that is a multiple of
`eval_interval`, `train` runs an evaluation pass, and (on rank 0 with a
workspace and `save_max_epoch_only` off) saves a regular full checkpoint; but
it never performs a best-save comparison: `save_checkpoint(best=True)` does
not occur in the trace. -/
theorem train_loop_schedule (startEpoch maxEpochs evalInterval e : ℕ)
    (smo r0 ws : Bool)
    (h0 : 0 < e) (h1 : startEpoch ≤ e) (h2 : e ≤ maxEpochs)
    (h3 : e % evalInterval = 0) :
    TrainAct.evalPass e ∈ trainActs startEpoch maxEpochs evalInterval false true true ∧
    TrainAct.saveCkpt e true false
      ∈ trainActs startEpoch maxEpochs evalInterval false true true ∧
    hasBestSave (trainActs startEpoch maxEpochs evalInterval smo r0 ws) = false := by
  have hrange : e ∈ List.range' startEpoch (maxEpochs + 1 - startEpoch) := by
    rw [List.mem_range'_1]
    omega
  refine ⟨?_, ?_, ?_⟩
  · rw [trainActs, List.mem_flatMap]
    refine ⟨e, hrange, ?_⟩
    unfold epochActs
    simp [h3, h0]
  · rw [trainActs, List.mem_flatMap]
    refine ⟨e, hrange, ?_⟩
    unfold epochActs
    simp [h3, h0]
  · rw [hasBestSave, List.any_eq_false]
    intro a ha
    rw [trainActs, List.mem_flatMap] at ha
    obtain ⟨x, -, hx⟩ := ha
    simp [epochActs_no_best evalInterval maxEpochs smo r0 ws x a hx]

/-- Witness for `train_loop_schedule` at epoch 4 of a 6-epoch run with
`eval_interval = 2`. -/
theorem train_loop_schedule_witness :
    TrainAct.evalPass 4 ∈ trainActs 1 6 2 false true true ∧
    TrainAct.saveCkpt 4 true false ∈ trainActs 1 6 2 false true true ∧
    hasBestSave (trainActs 1 6 2 false true true) = false :=
  train_loop_schedule 1 6 2 4 false true true (by decide) (by decide) (by decide)
    (by decide)

/-!
### Mixed-precision step coordinator (`Trainer.train_one_epoch` lines
1004-1012, `Trainer.__init__` line 401)

Modelled from the spec: the scale/skip/update state machine lives inside
`torch.cuda.amp.GradScaler(enabled=self.fp16)`, which is an external library
collaborator, not part of this repository; its behavior is modelled from
§4.4/§8.5 of the specification.  `scaler.scale(loss).backward();
scaler.step(optimizer); scaler.update()` applies the optimizer update only
when unscaling detected no overflow/NaN; on overflow it skips the update and
multiplies the scale by a backoff factor 1/2; otherwise it counts successful
steps and doubles the scale each `growthInterval` of them.  With
`enabled=False` every call passes straight through to `optimizer.step()` and
leaves the scaler state untouched.
-/

structure ScalerState where
  enabled : Bool
  scale : ℚ
  growthTracker : ℕ
  growthInterval : ℕ
deriving DecidableEq

structure OptimState where
  stepCount : ℕ
deriving DecidableEq

/-- `optimizer.step()`: the full-precision update. -/
def optimStep (o : OptimState) : OptimState :=
  { stepCount := o.stepCount + 1 }

/-- Modelled from the spec: one `scale → backward → scaler.step →
scaler.update` round; `overflow` is whether unscaling found inf/NaN
gradients. -/
def scalerStepUpdate (s : ScalerState) (o : OptimState) (overflow : Bool) :
    ScalerState × OptimState :=
  if s.enabled then
    let o' := if overflow then o else optimStep o
    let s' :=
      if overflow then
        { s with scale := s.scale / 2, growthTracker := 0 }
      else if s.growthTracker + 1 = s.growthInterval then
        { s with scale := s.scale * 2, growthTracker := 0 }
      else
        { s with growthTracker := s.growthTracker + 1 }
    (s', o')
  else (s, optimStep o)

/-- A run of consecutive training steps with the given overflow outcomes. -/
def ampRun : ScalerState × OptimState → List Bool → ScalerState × OptimState
  | p, [] => p
  | (s, o), f :: fs => ampRun (scalerStepUpdate s o f) fs

theorem scalerStepUpdate_no_overflow_scale (s : ScalerState) (o : OptimState)
    (h : 0 < s.scale) :
    s.scale ≤ (scalerStepUpdate s o false).1.scale ∧
      0 < (scalerStepUpdate s o false).1.scale := by
  unfold scalerStepUpdate
  cases hE : s.enabled
  · rw [if_neg (by simp [hE])]
    exact ⟨le_refl _, h⟩
  · simp only [reduceIte]
    by_cases hg : s.growthTracker + 1 = s.growthInterval
    · rw [if_pos hg]
      constructor
      · simpa using by linarith
      · simpa using by linarith
    · rw [if_neg hg]
      exact ⟨le_refl _, h⟩

/-- C9: on an overflow the coordinator does not apply the optimizer update and
strictly reduces the scale; over any run of steps with no overflow the scale
never decreases; with reduced precision disabled the coordinator is exactly
the full-precision pass-through `optimizer.step()` with no scaler-state
change. -/
theorem precision_step_coordinator :
    (∀ (s : ScalerState) (o : OptimState), s.enabled = true → 0 < s.scale →
      (scalerStepUpdate s o true).2 = o ∧
        (scalerStepUpdate s o true).1.scale < s.scale) ∧
    (∀ (s : ScalerState) (o : OptimState) (flags : List Bool), 0 < s.scale →
      (∀ f ∈ flags, f = false) → s.scale ≤ (ampRun (s, o) flags).1.scale) ∧
    (∀ (s : ScalerState) (o : OptimState) (f : Bool), s.enabled = false →
      scalerStepUpdate s o f = (s, optimStep o)) := by
  refine ⟨?_, ?_, ?_⟩
  · intro s o hE h
    unfold scalerStepUpdate
    rw [if_pos hE]
    constructor
    · simp
    · simpa using by linarith
  · intro s o flags
    induction flags generalizing s o with
    | nil => intro h _; exact le_refl _
    | cons f fs ih =>
      intro h hall
      have hf : f = false := hall f (List.mem_cons_self _ _)
      subst hf
      rw [ampRun.eq_def]
      have hstep := scalerStepUpdate_no_overflow_scale s o h
      calc s.scale ≤ (scalerStepUpdate s o false).1.scale := hstep.1
        _ ≤ _ := by
          have := ih (scalerStepUpdate s o false).1 (scalerStepUpdate s o false).2
            hstep.2 (fun g hg => hall g (List.mem_cons_of_mem _ hg))
          simpa using this
  · intro s o f hE
    unfold scalerStepUpdate
    rw [if_neg (by simp [hE])]

/-- Witness for `precision_step_coordinator`: a scaler at scale 8 with
overflow skips the update and halves the scale; four clean steps never shrink
the scale; a disabled scaler is a pass-through. -/
theorem precision_step_coordinator_witness :
    ((scalerStepUpdate ⟨true, 8, 0, 2000⟩ ⟨5⟩ true).2 = ⟨5⟩ ∧
      (scalerStepUpdate ⟨true, 8, 0, 2000⟩ ⟨5⟩ true).1.scale < 8) ∧
    (8 : ℚ) ≤ (ampRun (⟨true, 8, 0, 2⟩, ⟨0⟩) [false, false, false, false]).1.scale ∧
    scalerStepUpdate ⟨false, 8, 0, 2000⟩ ⟨5⟩ true = (⟨false, 8, 0, 2000⟩, ⟨6⟩) := by
  refine ⟨precision_step_coordinator.1 ⟨true, 8, 0, 2000⟩ ⟨5⟩ rfl (by norm_num),
    precision_step_coordinator.2.1 ⟨true, 8, 0, 2⟩ ⟨0⟩ [false, false, false, false]
      (by norm_num) (by decide),
    precision_step_coordinator.2.2 ⟨false, 8, 0, 2000⟩ ⟨5⟩ true rfl⟩

/-!
### Interactive training bursts (`Trainer.train_gui`, nerf/utils.py lines
792-851)

`train_gui(train_loader, step)` runs `step` loop iterations; each iteration
pulls the next batch from the loader iterator and, on `StopIteration`,
restarts the iterator and pulls the first batch — so each iteration performs
exactly one `train_step` (model invocation) and one `scaler.step(optimizer)`.
-/

/-- The sequence of batch indices consumed by `train_gui` when the supply
holds `n` batches and the iterator currently stands at `cur`; one list entry
per loop iteration, i.e. per model invocation and optimizer step. -/
def guiRun : ℕ → ℕ → ℕ → List ℕ
  | 0, _, _ => []
  | k + 1, n, cur =>
      if cur < n then cur :: guiRun k n (cur + 1)
      else 0 :: guiRun k n 1

/-- C7: a `train_gui` burst of `step` iterations performs exactly `step` model
invocations/optimizer steps for any non-empty supply, and with `step = 16`
over a 5-batch supply it wraps the supply three full cycles plus one batch. -/
theorem train_gui_cyclic_supply :
    (∀ (k n cur : ℕ), 0 < n → (guiRun k n cur).length = k) ∧
    guiRun 16 5 0 = [0, 1, 2, 3, 4, 0, 1, 2, 3, 4, 0, 1, 2, 3, 4, 0] := by
  constructor
  · intro k
    induction k with
    | zero => intro n cur _; rfl
    | succ k ih =>
      intro n cur hn
      rw [guiRun.eq_def]
      by_cases hc : cur < n
      · simp [hc, ih n (cur + 1) hn]
      · simp [hc, ih n 1 hn]
  · decide

/-- Witness for `train_gui_cyclic_supply`: the 16-step burst over 5 batches
makes exactly 16 model invocations. -/
theorem train_gui_cyclic_supply_witness :
    (guiRun 16 5 0).length = 16 :=
  train_gui_cyclic_supply.1 16 5 0 (by decide)

end TorchNgp
